import Mathlib

/-!
Shallow embedding of the credential-pool manager of this repository
(`src/services/api_manager.py`, class `APIKeyManager`) and of the
session-lock part of the generation client
(`src/services/gemini_client.py`, class `GeminiClient`).

Modelling conventions:
* Wall-clock instants (`time.time()`) and cooldown durations are `Int`
  seconds; every operation that reads the clock takes `now : Int`
  explicitly.
* Python dicts keyed by credential strings are association lists with a
  replace-on-insert update and a defaulted lookup, mirroring
  `dict.get(key, default)`.  The nested dict `error_counts[key] =
  {'last_error': t}` stores only the `last_error` field, so it is
  modelled as a map from key to that timestamp.
* The `settings` dict may lack individual fields (mirroring
  `settings.get(field, fallback)`), so each recognized option is an
  `Option`.
* File I/O in `add_api_keys` (the `write_text` call that may raise) is
  modelled by a boolean `writeOk`; construction of the external
  `genai.Client` in `GeminiClient._get_client_locked` (which may raise)
  is modelled by a boolean `clientOk`.  Streamlit display calls and
  debug printing are pure output and are not modelled.
-/

/-- Defaulted lookup in an association list, mirroring Python
`d.get(key, default)`. -/
def lookupD {α : Type} : List (String × α) → String → α → α
  | [], _, d => d
  | p :: m, k, d => if p.1 = k then p.2 else lookupD m k d

/-- Replace-on-insert update of an association list, mirroring Python
`d[key] = value`. -/
def insertD {α : Type} : List (String × α) → String → α → List (String × α)
  | [], k, v => [(k, v)]
  | p :: m, k, v => if p.1 = k then (k, v) :: m else p :: insertD m k v

/-- The recognized options of the `settings` object of the persisted
configuration file; each field may be absent. -/
structure Settings where
  rotation_strategy : Option String
  error_cooldown_minutes : Option Int
  rate_limit_cooldown_minutes : Option Int
  max_retries_per_key : Option Int
deriving DecidableEq

/-- `default_settings` of `APIKeyManager._load_settings`. -/
def default_settings : Settings :=
  { rotation_strategy := some "round_robin"
    error_cooldown_minutes := some 5
    rate_limit_cooldown_minutes := some 1
    max_retries_per_key := some 3 }

/-- `APIKeyManager._load_settings`: `data.get('settings',
default_settings)`.  The argument is the `settings` member of the parsed
configuration file, `none` when that key is absent. -/
def load_settings (settingsField : Option Settings) : Settings :=
  settingsField.getD default_settings

/-- A `Settings` object that is present but carries none of the
recognized fields. -/
def empty_settings : Settings :=
  { rotation_strategy := none
    error_cooldown_minutes := none
    rate_limit_cooldown_minutes := none
    max_retries_per_key := none }

/-- The rate-limit cooldown in seconds used by
`APIKeyManager._is_key_available`:
`settings.get('rate_limit_cooldown_minutes', 5) * 60`. -/
def rate_limit_cd (s : Settings) : Int :=
  s.rate_limit_cooldown_minutes.getD 5 * 60

/-- The error cooldown in seconds used by
`APIKeyManager._is_key_available`:
`settings.get('error_cooldown_minutes', 15) * 60`. -/
def error_cd (s : Settings) : Int :=
  s.error_cooldown_minutes.getD 15 * 60

/-- The mutable state of `APIKeyManager`:  the credential list, the
policy settings, the three tracking dicts and the rotation cursor. -/
structure APIKeyManager where
  api_keys : List String
  settings : Settings
  usage_tracker : List (String × Nat)
  rate_limits : List (String × Int)
  error_counts : List (String × Int)
  current_index : Nat
deriving DecidableEq

/-- The state of `APIKeyManager.__init__` right after loading: given
keys and settings, empty trackers and cursor `0`. -/
def init_manager (keys : List String) (settings : Settings) : APIKeyManager :=
  { api_keys := keys
    settings := settings
    usage_tracker := []
    rate_limits := []
    error_counts := []
    current_index := 0 }

/-- `APIKeyManager._is_key_available(key)` at instant `now`:  the key is
unavailable while `now - last_used < rate_limit_cd` or
`now - last_err < error_cd`, with `0` as the default for an unrecorded
timestamp. -/
def is_key_available (now : Int) (m : APIKeyManager) (key : String) : Bool :=
  let rlcd := rate_limit_cd m.settings
  let ecd := error_cd m.settings
  let last_used := lookupD m.rate_limits key 0
  if now - last_used < rlcd then false
  else
    let last_err := lookupD m.error_counts key 0
    if now - last_err < ecd then false
    else true

/-- `APIKeyManager._update_usage(key)` at instant `now`:  increments the
usage counter and stamps `rate_limits[key] = now`. -/
def update_usage (now : Int) (key : String) (m : APIKeyManager) : APIKeyManager :=
  { m with
    usage_tracker := insertD m.usage_tracker key (lookupD m.usage_tracker key 0 + 1)
    rate_limits := insertD m.rate_limits key now }

/-- The `while attempts < total_keys` loop of `APIKeyManager.get_next_key`,
with the remaining number of permitted iterations as fuel.  Besides the
selected key and the post-state it returns how many availability checks
were evaluated.  The credential at the cursor is read as
`api_keys[current_index]` (defaulting to `""` out of range, a position
the manager never reaches); on an unavailable credential the cursor
advances by one modulo the pool size and the loop continues; on an
available one usage is recorded and the scan stops. -/
def scan_keys (now : Int) : Nat → APIKeyManager → Option String × APIKeyManager × Nat
  | 0, m => (none, m, 0)
  | fuel + 1, m =>
    let key := m.api_keys.getD m.current_index ""
    if is_key_available now m key then
      (some key, update_usage now key m, 1)
    else
      let m2 := { m with current_index := (m.current_index + 1) % m.api_keys.length }
      let r := scan_keys now fuel m2
      (r.1, r.2.1, r.2.2 + 1)

/-- `APIKeyManager.get_next_key()` at instant `now`:  `none` on an empty
pool, otherwise the bounded rotation scan with `len(api_keys)` as the
iteration budget. -/
def get_next_key (now : Int) (m : APIKeyManager) : Option String × APIKeyManager :=
  if m.api_keys.isEmpty then (none, m)
  else
    let r := scan_keys now m.api_keys.length m
    (r.1, r.2.1)

/-- The number of `_is_key_available` evaluations a `get_next_key` call
performs at instant `now`. -/
def availability_checks (now : Int) (m : APIKeyManager) : Nat :=
  if m.api_keys.isEmpty then 0
  else (scan_keys now m.api_keys.length m).2.2

/-- `APIKeyManager.mark_key_error(key)` at instant `now`:
`error_counts[key] = {'last_error': now}`. -/
def mark_key_error (now : Int) (key : String) (m : APIKeyManager) : APIKeyManager :=
  { m with error_counts := insertD m.error_counts key now }

/-- `APIKeyManager.reset_usage()`: clears the three tracking dicts and
resets the cursor to `0`. -/
def reset_usage (m : APIKeyManager) : APIKeyManager :=
  { m with
    usage_tracker := []
    rate_limits := []
    error_counts := []
    current_index := 0 }

/-- `APIKeyManager.add_api_keys(keys)`:  truncates the argument to the
first `10` entries, persists (`writeOk` models whether the file write
raises), installs the truncated list and calls `reset_usage`, returning
`true`; when the write raises, the in-memory state is left untouched and
the result is `false`. -/
def add_api_keys (writeOk : Bool) (keys : List String) (m : APIKeyManager) :
    Bool × APIKeyManager :=
  let keys10 := keys.take 10
  if writeOk then
    (true, reset_usage { m with api_keys := keys10 })
  else
    (false, m)

/-- Consecutive `get_next_key` calls at the given instants, collecting
the returned credentials and threading the manager state. -/
def run_next : List Int → APIKeyManager → List (Option String) × APIKeyManager
  | [], m => ([], m)
  | now :: rest, m =>
    let r := get_next_key now m
    let rs := run_next rest r.2
    (r.1 :: rs.1, rs.2)

/-- The session-lock state of `GeminiClient`:  the pinned credential and
the credential the currently constructed client was built from (the
`current_client` object itself is external and carries no further
state). -/
structure GeminiClient where
  locked_api_key : Option String
  current_api_key : Option String
deriving DecidableEq

/-- `GeminiClient._get_client_locked()` at instant `now`:  reuses the
pinned credential when one is held, otherwise consults
`get_next_key`, pinning a successfully obtained credential; then
(re)builds the client when the built-from credential differs, with
`clientOk` modelling whether `genai.Client(...)` raises — on a raise the
credential is marked errored, the pin is cleared and the result is
`none`. -/
def get_client_locked (clientOk : Bool) (now : Int) (g : GeminiClient)
    (m : APIKeyManager) : Option String × GeminiClient × APIKeyManager :=
  match g.locked_api_key with
  | some api_key =>
    if g.current_api_key = some api_key then (some api_key, g, m)
    else if clientOk then
      (some api_key, { g with current_api_key := some api_key }, m)
    else
      (none, { g with locked_api_key := none }, mark_key_error now api_key m)
  | none =>
    match get_next_key now m with
    | (none, m2) => (none, g, m2)
    | (some api_key, m2) =>
      let g2 : GeminiClient :=
        { locked_api_key := some api_key, current_api_key := g.current_api_key }
      if g2.current_api_key = some api_key then (some api_key, g2, m2)
      else if clientOk then
        (some api_key, { g2 with current_api_key := some api_key }, m2)
      else
        (none, { g2 with locked_api_key := none }, mark_key_error now api_key m2)

/-- `GeminiClient.unlock_session_key()`: clears the pin. -/
def unlock_session_key (g : GeminiClient) : GeminiClient :=
  { g with locked_api_key := none }

/-- `C10`: the default cooldown pairs are inconsistent: a configuration
file without a `settings` object loads `default_settings`, giving a
1-minute rate-limit and 5-minute error cooldown, while a `settings`
object that is present but lacks the cooldown fields makes
`_is_key_available` fall back to 5-minute rate-limit and 15-minute error
cooldowns; the two pairs differ. -/
theorem c10_default_cooldown_mismatch :
    load_settings none = default_settings ∧
    rate_limit_cd (load_settings none) = 60 ∧
    error_cd (load_settings none) = 300 ∧
    rate_limit_cd (load_settings (some empty_settings)) = 300 ∧
    error_cd (load_settings (some empty_settings)) = 900 ∧
    (rate_limit_cd (load_settings none), error_cd (load_settings none)) ≠
      (rate_limit_cd (load_settings (some empty_settings)),
        error_cd (load_settings (some empty_settings))) := by
  refine ⟨rfl, rfl, rfl, rfl, rfl, ?_⟩
  decide

theorem lookupD_insertD {α : Type} (l : List (String × α)) (k k2 : String) (v d : α) :
    lookupD (insertD l k v) k2 d = if k = k2 then v else lookupD l k2 d := by
  induction l with
  | nil =>
    by_cases h2 : k = k2 <;> simp [insertD, lookupD, h2]
  | cons p m ih =>
    by_cases h : p.1 = k
    · subst h
      by_cases h2 : p.1 = k2 <;> simp [insertD, lookupD, h2]
    · by_cases h2 : p.1 = k2
      · subst h2
        have hk : ¬ k = p.1 := fun hc => h hc.symm
        simp [insertD, lookupD, h, hk]
      · simp [insertD, lookupD, h, h2, ih]

theorem is_key_available_true_iff (now : Int) (m : APIKeyManager) (key : String) :
    is_key_available now m key = true ↔
      rate_limit_cd m.settings ≤ now - lookupD m.rate_limits key 0 ∧
      error_cd m.settings ≤ now - lookupD m.error_counts key 0 := by
  by_cases h1 : now - lookupD m.rate_limits key 0 < rate_limit_cd m.settings
  · by_cases h2 : now - lookupD m.error_counts key 0 < error_cd m.settings
    · simp [is_key_available, h1, h2]
    · simp [is_key_available, h1, h2]
  · by_cases h2 : now - lookupD m.error_counts key 0 < error_cd m.settings
    · simp [is_key_available, h1, h2]
    · simp [is_key_available, h1, h2]
      omega

theorem is_key_available_set_index (now : Int) (m : APIKeyManager) (i : Nat)
    (key : String) :
    is_key_available now { m with current_index := i } key =
      is_key_available now m key := rfl

theorem scan_keys_avail (now : Int) :
    ∀ (fuel : Nat) (m : APIKeyManager) (k : String),
      (scan_keys now fuel m).1 = some k → is_key_available now m k = true := by
  intro fuel
  induction fuel with
  | zero => intro m k h; simp [scan_keys] at h
  | succ n ih =>
    intro m k h
    simp only [scan_keys] at h
    by_cases ha : is_key_available now m (m.api_keys.getD m.current_index "") = true
    · rw [if_pos ha] at h
      have h2 : some (m.api_keys.getD m.current_index "") = some k := h
      injection h2 with h2
      subst h2
      exact ha
    · rw [if_neg ha] at h
      have h3 : (scan_keys now n
          { m with current_index :=
              (m.current_index + 1) % m.api_keys.length }).1 = some k := h
      exact ih { m with current_index :=
        (m.current_index + 1) % m.api_keys.length } k h3

theorem scan_keys_success_state (now : Int) :
    ∀ (fuel : Nat) (m : APIKeyManager) (k : String),
      (scan_keys now fuel m).1 = some k →
      (scan_keys now fuel m).2.1.api_keys = m.api_keys ∧
      (scan_keys now fuel m).2.1.api_keys.getD
        (scan_keys now fuel m).2.1.current_index "" = k := by
  intro fuel
  induction fuel with
  | zero => intro m k h; simp [scan_keys] at h
  | succ n ih =>
    intro m k h
    simp only [scan_keys] at h ⊢
    by_cases ha : is_key_available now m (m.api_keys.getD m.current_index "") = true
    · rw [if_pos ha] at h ⊢
      have h2 : some (m.api_keys.getD m.current_index "") = some k := h
      injection h2 with h2
      subst h2
      exact ⟨rfl, rfl⟩
    · rw [if_neg ha] at h ⊢
      have h3 : (scan_keys now n
          { m with current_index :=
              (m.current_index + 1) % m.api_keys.length }).1 = some k := h
      exact ih _ k h3

theorem scan_keys_count_le (now : Int) :
    ∀ (fuel : Nat) (m : APIKeyManager), (scan_keys now fuel m).2.2 ≤ fuel := by
  intro fuel
  induction fuel with
  | zero => intro m; simp [scan_keys]
  | succ n ih =>
    intro m
    simp only [scan_keys]
    by_cases ha : is_key_available now m (m.api_keys.getD m.current_index "") = true
    · rw [if_pos ha]
      exact Nat.le_add_left 1 n
    · rw [if_neg ha]
      exact Nat.succ_le_succ (ih _)

/-- `C9`: `get_next_key` always terminates: on an empty pool it returns
`none` at once with the state untouched, and in general a call evaluates
availability of at most `len(api_keys)` credentials. -/
theorem c9_bounded_scan :
    (∀ (m : APIKeyManager) (now : Int),
        m.api_keys = [] → get_next_key now m = (none, m)) ∧
    (∀ (m : APIKeyManager) (now : Int),
        availability_checks now m ≤ m.api_keys.length) := by
  constructor
  · intro m now h
    simp [get_next_key, h]
  · intro m now
    by_cases h : m.api_keys.isEmpty
    · simp [availability_checks, h]
    · simp only [availability_checks, h, if_false, Bool.false_eq_true]
      exact scan_keys_count_le now _ m

theorem c9_bounded_scan_witness :
    get_next_key 5 (init_manager [] default_settings) =
      (none, init_manager [] default_settings) ∧
    availability_checks 5 (init_manager ["A"] default_settings) ≤
      (init_manager ["A"] default_settings).api_keys.length :=
  ⟨c9_bounded_scan.1 (init_manager [] default_settings) 5 rfl,
   c9_bounded_scan.2 (init_manager ["A"] default_settings) 5⟩

/-- `C4` as stated is false: on a fresh two-credential pool the call
returns the credential at position `0` and leaves `current_index` at
`0` — the cursor does not advance past the returned credential on a
successful selection attempt. -/
theorem c4_counterexample :
    (get_next_key 1000 (init_manager ["A", "B"] default_settings)).1 = some "A" ∧
    (get_next_key 1000 (init_manager ["A", "B"] default_settings)).2.current_index
      = 0 :=
  ⟨rfl, rfl⟩

/-- `C4` amended: `current_index` advances by one (mod pool size) only
on a failed availability check; when a selection attempt succeeds the
cursor is left pointing at the position of the returned credential, not
past it. -/
theorem c4_amended_cursor :
    (∀ (m : APIKeyManager) (now : Int) (fuel : Nat),
        is_key_available now m (m.api_keys.getD m.current_index "") = false →
        (scan_keys now (fuel + 1) m).1 =
          (scan_keys now fuel
            { m with current_index :=
                (m.current_index + 1) % m.api_keys.length }).1) ∧
    (∀ (m : APIKeyManager) (now : Int) (k : String),
        (get_next_key now m).1 = some k →
        (get_next_key now m).2.api_keys.getD
          (get_next_key now m).2.current_index "" = k) := by
  constructor
  · intro m now fuel h
    have h2 : ¬ (is_key_available now m (m.api_keys.getD m.current_index "") = true) := by
      intro hc
      rw [h] at hc
      exact Bool.false_ne_true hc
    simp only [scan_keys]
    rw [if_neg h2]
  · intro m now k h
    by_cases he : m.api_keys.isEmpty
    · simp [get_next_key, he] at h
    · simp only [get_next_key, he, if_false, Bool.false_eq_true] at h ⊢
      exact (scan_keys_success_state now m.api_keys.length m k h).2

theorem c4_amended_cursor_witness :
    (scan_keys 0 1 (init_manager ["A"] default_settings)).1 =
      (scan_keys 0 0
        { init_manager ["A"] default_settings with current_index := 1 % 1 }).1 ∧
    (get_next_key 1000 (init_manager ["A", "B"] default_settings)).2.api_keys.getD
      (get_next_key 1000 (init_manager ["A", "B"] default_settings)).2.current_index
        "" = "A" :=
  ⟨c4_amended_cursor.1 (init_manager ["A"] default_settings) 0 0 (by decide),
   c4_amended_cursor.2 (init_manager ["A", "B"] default_settings) 1000 "A" (by decide)⟩

/-- The scenario pool of `C3`: three fresh credentials under
`default_settings` (rate-limit cooldown sixty seconds, error cooldown
three hundred seconds).  Call instants are taken relative to the base
wall-clock instant `1000` standing for the scenario's `t = 0`. -/
def poolABC : APIKeyManager := init_manager ["A", "B", "C"] default_settings

/-- `C3` as stated is false: in the scenario the fifth call (at
`t = 61`, instant `1061`) returns credential `C`, not `A` — after the
failed scan at `t = 30` the cursor is parked on `C`'s position, because
a successful selection does not advance it. -/
theorem c3_counterexample :
    (run_next [1000, 1000, 1000, 1030, 1061] poolABC).1.getD 4 none = some "C" ∧
    ¬ (run_next [1000, 1000, 1000, 1030, 1061] poolABC).1.getD 4 none
        = some "A" := by
  refine ⟨rfl, ?_⟩
  decide

/-- `C3` amended: the three calls at the base instant return `A`, `B`,
`C` in order, each with usage recorded once; the call at `t = 30`
returns `none`; the call at `t = 61` returns `C` (the credential the
cursor was left on), not `A`. -/
theorem c3_amended_trace :
    (run_next [1000, 1000, 1000, 1030, 1061] poolABC).1
      = [some "A", some "B", some "C", none, some "C"] ∧
    lookupD (run_next [1000, 1000, 1000] poolABC).2.usage_tracker "A" 0 = 1 ∧
    lookupD (run_next [1000, 1000, 1000] poolABC).2.usage_tracker "B" 0 = 1 ∧
    lookupD (run_next [1000, 1000, 1000] poolABC).2.usage_tracker "C" 0 = 1 :=
  ⟨rfl, rfl, rfl, rfl⟩

/-- The eleven-credential bulk-add input of `C5`. -/
def keys11 : List String :=
  ["k01", "k02", "k03", "k04", "k05", "k06", "k07", "k08", "k09", "k10", "k11"]

/-- `C5` as stated is false: bulk-adding eleven credentials stores
exactly the first ten, but the call returns the same plain success value
`true` that a non-truncating add returns — there is no distinct
truncation signal at this boundary. -/
theorem c5_counterexample :
    (add_api_keys true keys11 (init_manager [] default_settings)).2.api_keys
      = keys11.take 10 ∧
    (add_api_keys true keys11 (init_manager [] default_settings)).2.api_keys.length
      = 10 ∧
    (add_api_keys true keys11 (init_manager [] default_settings)).1 = true ∧
    (add_api_keys true ["k01"] (init_manager [] default_settings)).1 = true :=
  ⟨rfl, rfl, rfl, rfl⟩

/-- `C5` amended: for an input of more than ten credentials,
`add_api_keys` stores exactly the first ten and returns `true`, the same
plain success value it returns on every successful add — truncation is
silent at this boundary (the page-level caller prints its own warning
before calling it). -/
theorem c5_amended_silent_truncation (keys : List String) (m : APIKeyManager)
    (h : 10 < keys.length) :
    (add_api_keys true keys m).2.api_keys = keys.take 10 ∧
    (add_api_keys true keys m).2.api_keys.length = 10 ∧
    (add_api_keys true keys m).1 = true ∧
    (∀ (keys2 : List String) (m2 : APIKeyManager),
      (add_api_keys true keys2 m2).1 = true) := by
  refine ⟨rfl, ?_, rfl, fun _ _ => rfl⟩
  have h2 : (add_api_keys true keys m).2.api_keys = keys.take 10 := rfl
  rw [h2, List.length_take]
  omega

theorem c5_amended_silent_truncation_witness :
    10 < keys11.length ∧
    (add_api_keys true keys11 (init_manager ["z"] default_settings)).2.api_keys
      = keys11.take 10 :=
  ⟨by decide,
   (c5_amended_silent_truncation keys11 (init_manager ["z"] default_settings)
     (by decide)).1⟩

/-- `C6` as stated is false: `add_api_keys` performs no duplicate
rejection — a list holding the same credential twice is stored verbatim
with the duplicate, and adding a list consisting of one
already-present credential replaces the whole stored list rather than
leaving the stored set unchanged. -/
theorem c6_counterexample :
    (add_api_keys true ["dup", "dup"] (init_manager [] default_settings)).2.api_keys
      = ["dup", "dup"] ∧
    ¬ (add_api_keys true ["dup", "dup"]
        (init_manager [] default_settings)).2.api_keys.Nodup ∧
    (add_api_keys true ["b"] (init_manager ["a", "b"] default_settings)).2.api_keys
      = ["b"] := by
  refine ⟨rfl, ?_, rfl⟩
  decide

/-- `C6` amended: `add_api_keys` does not deduplicate: on the successful
path it replaces the stored credential list by the first ten elements of
its argument verbatim, duplicates included (only the single-key page
path checks for an already-present credential before calling it). -/
theorem c6_amended_no_dedup (keys : List String) (m : APIKeyManager) :
    (add_api_keys true keys m).2.api_keys = keys.take 10 :=
  rfl

theorem get_next_key_some_avail (now : Int) (m : APIKeyManager) (k : String)
    (h : (get_next_key now m).1 = some k) : is_key_available now m k = true := by
  by_cases he : m.api_keys.isEmpty
  · simp [get_next_key, he] at h
  · simp only [get_next_key, he, if_false, Bool.false_eq_true] at h
    exact scan_keys_avail now m.api_keys.length m k h

/-- `C1`: `get_next_key` never returns a credential whose rate-limit or
error cooldown has not elapsed; in particular after `mark_key_error(c)`
at instant `te` it does not return `c` while `now - te < error_cd`, and
on a single-credential pool `[c]` it then returns `none`. -/
theorem c1_no_cooldown_violation :
    (∀ (m : APIKeyManager) (now : Int) (k : String),
        (get_next_key now m).1 = some k →
        rate_limit_cd m.settings ≤ now - lookupD m.rate_limits k 0 ∧
        error_cd m.settings ≤ now - lookupD m.error_counts k 0) ∧
    (∀ (m : APIKeyManager) (now te : Int) (c : String),
        now - te < error_cd m.settings →
        ¬ (get_next_key now (mark_key_error te c m)).1 = some c) ∧
    (∀ (m : APIKeyManager) (now te : Int) (c : String),
        m.api_keys = [c] → m.current_index = 0 →
        now - te < error_cd m.settings →
        (get_next_key now (mark_key_error te c m)).1 = none) := by
  refine ⟨?_, ?_, ?_⟩
  · intro m now k h
    exact (is_key_available_true_iff now m k).1 (get_next_key_some_avail now m k h)
  · intro m now te c hlt hc
    have hav := get_next_key_some_avail now (mark_key_error te c m) c hc
    rw [is_key_available_true_iff] at hav
    have he : lookupD (mark_key_error te c m).error_counts c 0 = te := by
      have h2 : (mark_key_error te c m).error_counts = insertD m.error_counts c te :=
        rfl
      rw [h2, lookupD_insertD]
      simp
    rw [he] at hav
    have hs : (mark_key_error te c m).settings = m.settings := rfl
    rw [hs] at hav
    omega
  · intro m now te c hkeys hidx hlt
    obtain ⟨ak, st, ut, rl, ec, ci⟩ := m
    simp only at hkeys hidx hlt
    subst hkeys
    subst hidx
    have hav2 : is_key_available now
        (⟨[c], st, ut, rl, insertD ec c te, 0⟩ : APIKeyManager) c = false := by
      have hno : ¬ (is_key_available now
          (⟨[c], st, ut, rl, insertD ec c te, 0⟩ : APIKeyManager) c = true) := by
        rw [is_key_available_true_iff]
        intro hpair
        have h2 := hpair.2
        simp only [lookupD_insertD] at h2
        simp at h2
        omega
      revert hno
      cases is_key_available now
          (⟨[c], st, ut, rl, insertD ec c te, 0⟩ : APIKeyManager) c
      · intro _
        rfl
      · intro hno
        exact absurd rfl hno
    simp [get_next_key, scan_keys, mark_key_error, hav2]

theorem c1_no_cooldown_violation_witness :
    (rate_limit_cd (init_manager ["A"] default_settings).settings ≤
        1000 - lookupD (init_manager ["A"] default_settings).rate_limits "A" 0 ∧
      error_cd (init_manager ["A"] default_settings).settings ≤
        1000 - lookupD (init_manager ["A"] default_settings).error_counts "A" 0) ∧
    ¬ (get_next_key 1000
        (mark_key_error 900 "A" (init_manager ["A"] default_settings))).1
        = some "A" ∧
    (get_next_key 1000
      (mark_key_error 900 "A" (init_manager ["A"] default_settings))).1 = none :=
  ⟨c1_no_cooldown_violation.1 (init_manager ["A"] default_settings) 1000 "A"
    (by decide),
   c1_no_cooldown_violation.2.1 (init_manager ["A"] default_settings) 1000 900 "A"
    (by decide),
   c1_no_cooldown_violation.2.2 (init_manager ["A"] default_settings) 1000 900 "A"
    rfl rfl (by decide)⟩

/-- `C7`: a successful `add_api_keys` clears all usage counters,
rate-limit timestamps and error timestamps, resets the cursor to `0`,
and (at any instant at which the configured cooldowns have elapsed since
the zero default timestamp, as is the case for any realistic wall-clock
reading) every credential of the new list is immediately available, so
`get_next_key` immediately returns the first credential of a non-empty
new list — in particular a credential previously on error cooldown that
is re-added through this path is returned at once. -/
theorem c7_replace_clears_state (m : APIKeyManager) (keys : List String) (now : Int)
    (hr : rate_limit_cd m.settings ≤ now) (he : error_cd m.settings ≤ now) :
    (add_api_keys true keys m).2.usage_tracker = [] ∧
    (add_api_keys true keys m).2.rate_limits = [] ∧
    (add_api_keys true keys m).2.error_counts = [] ∧
    (add_api_keys true keys m).2.current_index = 0 ∧
    (∀ c, c ∈ (add_api_keys true keys m).2.api_keys →
      is_key_available now (add_api_keys true keys m).2 c = true) ∧
    (keys ≠ [] →
      (get_next_key now (add_api_keys true keys m).2).1 = some (keys.getD 0 "")) := by
  refine ⟨rfl, rfl, rfl, rfl, ?_, ?_⟩
  · intro c _
    rw [is_key_available_true_iff]
    have h1 : lookupD (add_api_keys true keys m).2.rate_limits c 0 = 0 := rfl
    have h2 : lookupD (add_api_keys true keys m).2.error_counts c 0 = 0 := rfl
    have h3 : (add_api_keys true keys m).2.settings = m.settings := rfl
    rw [h1, h2, h3]
    constructor <;> omega
  · intro hne
    match keys with
    | [] => exact absurd rfl hne
    | k0 :: rest =>
      have hav : is_key_available now
          (add_api_keys true (k0 :: rest) m).2 k0 = true := by
        rw [is_key_available_true_iff]
        have h1 : lookupD (add_api_keys true (k0 :: rest) m).2.rate_limits k0 0 = 0 :=
          rfl
        have h2 : lookupD (add_api_keys true (k0 :: rest) m).2.error_counts k0 0 = 0 :=
          rfl
        have h3 : (add_api_keys true (k0 :: rest) m).2.settings = m.settings := rfl
        rw [h1, h2, h3]
        constructor <;> omega
      simp [get_next_key, scan_keys, add_api_keys, reset_usage] at hav ⊢
      simp [hav]

theorem c7_replace_clears_state_witness :
    rate_limit_cd (mark_key_error 999 "X"
        (init_manager ["X"] default_settings)).settings ≤ 1000 ∧
    error_cd (mark_key_error 999 "X"
        (init_manager ["X"] default_settings)).settings ≤ 1000 ∧
    ["X"] ≠ ([] : List String) ∧
    (get_next_key 1000
        (add_api_keys true ["X"]
          (mark_key_error 999 "X" (init_manager ["X"] default_settings))).2).1 =
      some ((["X"] : List String).getD 0 "") :=
  ⟨by decide, by decide, by decide,
   (c7_replace_clears_state
      (mark_key_error 999 "X" (init_manager ["X"] default_settings)) ["X"] 1000
      (by decide) (by decide)).2.2.2.2.2 (by decide)⟩

theorem get_client_locked_held (clientOk : Bool) (now : Int) (g : GeminiClient)
    (m : APIKeyManager) (k : String) (hg : g.locked_api_key = some k)
    (hc : g.current_api_key = some k) :
    get_client_locked clientOk now g m = (some k, g, m) := by
  obtain ⟨lk, ck⟩ := g
  simp only at hg hc
  subst hg
  subst hc
  simp [get_client_locked]

theorem get_client_locked_success_pins (now : Int) (g : GeminiClient)
    (m : APIKeyManager) (k : String)
    (h : (get_client_locked true now g m).1 = some k) :
    (get_client_locked true now g m).2.1.locked_api_key = some k ∧
    (get_client_locked true now g m).2.1.current_api_key = some k := by
  obtain ⟨lk, ck⟩ := g
  cases lk with
  | some a =>
    by_cases hck : ck = some a
    · subst hck
      simp [get_client_locked] at h ⊢
      exact h
    · simp [get_client_locked, hck] at h ⊢
      exact h
  | none =>
    simp only [get_client_locked] at h ⊢
    cases hnk : get_next_key now m with
    | mk o m2 =>
      rw [hnk] at h
      cases o with
      | none => simp at h
      | some a =>
        by_cases hck : ck = some a
        · subst hck
          simp at h ⊢
          exact h
        · simp [hck] at h ⊢
          exact h

/-- `C8`: while a session lock is held, acquiring again returns the
identical held credential and leaves the pool untouched (the pool's
`get_next_key` is not consulted); consequently two acquires without an
intervening release yield the same credential, whatever the pool state
and however rotation would have chosen otherwise. -/
theorem c8_session_lock_idempotent :
    (∀ (now : Int) (g : GeminiClient) (m : APIKeyManager) (k : String),
        g.locked_api_key = some k →
        (get_client_locked true now g m).1 = some k ∧
        (get_client_locked true now g m).2.2 = m) ∧
    (∀ (now now2 : Int) (g : GeminiClient) (m : APIKeyManager) (k : String),
        (get_client_locked true now g m).1 = some k →
        (get_client_locked true now2
            (get_client_locked true now g m).2.1
            (get_client_locked true now g m).2.2).1 = some k ∧
        (get_client_locked true now2
            (get_client_locked true now g m).2.1
            (get_client_locked true now g m).2.2).2.2 =
          (get_client_locked true now g m).2.2) := by
  constructor
  · intro now g m k hg
    obtain ⟨lk, ck⟩ := g
    simp only at hg
    subst hg
    by_cases hck : ck = some k
    · subst hck
      simp [get_client_locked]
    · simp only [get_client_locked]
      rw [if_neg hck]
      simp
  · intro now now2 g m k h
    have h2 := get_client_locked_success_pins now g m k h
    rw [get_client_locked_held true now2
      (get_client_locked true now g m).2.1
      (get_client_locked true now g m).2.2 k h2.1 h2.2]
    exact ⟨rfl, rfl⟩

theorem c8_session_lock_idempotent_witness :
    ((⟨some "L", some "L"⟩ : GeminiClient).locked_api_key = some "L" ∧
      (get_client_locked true 1000 ⟨some "L", some "L"⟩
          (init_manager ["A", "B"] default_settings)).1 = some "L" ∧
      (get_client_locked true 1000 ⟨some "L", some "L"⟩
          (init_manager ["A", "B"] default_settings)).2.2 =
        init_manager ["A", "B"] default_settings) ∧
    ((get_client_locked true 1000 ⟨none, none⟩
        (init_manager ["A", "B"] default_settings)).1 = some "A" ∧
      (get_client_locked true 2000
          (get_client_locked true 1000 ⟨none, none⟩
            (init_manager ["A", "B"] default_settings)).2.1
          (get_client_locked true 1000 ⟨none, none⟩
            (init_manager ["A", "B"] default_settings)).2.2).1 = some "A") :=
  ⟨⟨rfl,
    (c8_session_lock_idempotent.1 1000 ⟨some "L", some "L"⟩
      (init_manager ["A", "B"] default_settings) "L" rfl).1,
    (c8_session_lock_idempotent.1 1000 ⟨some "L", some "L"⟩
      (init_manager ["A", "B"] default_settings) "L" rfl).2⟩,
   ⟨by decide,
    (c8_session_lock_idempotent.2 1000 2000 ⟨none, none⟩
      (init_manager ["A", "B"] default_settings) "A" (by decide)).1⟩⟩

theorem get_next_key_eq_scan (now : Int) (m : APIKeyManager)
    (h : m.api_keys.isEmpty = false) :
    get_next_key now m =
      ((scan_keys now m.api_keys.length m).1,
       (scan_keys now m.api_keys.length m).2.1) := by
  simp only [get_next_key, h, Bool.false_eq_true, if_false]

theorem scan_keys_first_avail (now : Int) (fuel : Nat) (m : APIKeyManager)
    (h : is_key_available now m (m.api_keys.getD m.current_index "") = true) :
    scan_keys now (fuel + 1) m =
      (some (m.api_keys.getD m.current_index ""),
       update_usage now (m.api_keys.getD m.current_index "") m, 1) := by
  simp only [scan_keys]
  rw [if_pos h]

theorem scan_keys_skip (now : Int) (fuel : Nat) (m : APIKeyManager)
    (h : is_key_available now m (m.api_keys.getD m.current_index "") = false) :
    (scan_keys now (fuel + 1) m).1 =
      (scan_keys now fuel
        { m with current_index := (m.current_index + 1) % m.api_keys.length }).1 ∧
    (scan_keys now (fuel + 1) m).2.1 =
      (scan_keys now fuel
        { m with current_index := (m.current_index + 1) % m.api_keys.length }).2.1 := by
  have h2 : ¬ (is_key_available now m (m.api_keys.getD m.current_index "") = true) := by
    intro hc
    rw [h] at hc
    exact Bool.false_ne_true hc
  simp only [scan_keys]
  rw [if_neg h2]
  exact ⟨rfl, rfl⟩

theorem is_key_available_false_of_rate (now : Int) (m : APIKeyManager) (key : String)
    (h : now - lookupD m.rate_limits key 0 < rate_limit_cd m.settings) :
    is_key_available now m key = false := by
  cases hb : is_key_available now m key
  · rfl
  · rw [is_key_available_true_iff] at hb
    obtain ⟨h1, _⟩ := hb
    omega

theorem getD_not_mem_take (keys : List String) (j : Nat) (hj : j < keys.length)
    (hnd : keys.Nodup) : keys.getD j "" ∉ keys.take j := by
  intro hmem
  have hgd : keys.getD j "" = keys.get ⟨j, hj⟩ := by
    rw [List.getD_eq_getElem?_getD, List.getElem?_eq_getElem hj]
    rfl
  rw [hgd] at hmem
  obtain ⟨i, hm, hi⟩ := List.mem_take_iff_getElem.mp hmem
  have hij : i = j := (hnd.getElem_inj_iff).mp hi
  omega

theorem mem_take_succ_iff (keys : List String) (j : Nat) (hj : j < keys.length)
    (k : String) :
    k ∈ keys.take (j + 1) ↔ k ∈ keys.take j ∨ k = keys.getD j "" := by
  have hgd : keys.getD j "" = keys.get ⟨j, hj⟩ := by
    rw [List.getD_eq_getElem?_getD, List.getElem?_eq_getElem hj]
    rfl
  rw [List.take_succ, List.getElem?_eq_getElem hj]
  constructor
  · intro h
    rcases List.mem_append.mp h with h1 | h2
    · exact Or.inl h1
    · right
      rw [hgd]
      rw [Option.toList_some] at h2
      exact List.mem_singleton.mp h2
  · intro h
    rcases h with h1 | h2
    · exact List.mem_append.mpr (Or.inl h1)
    · refine List.mem_append.mpr (Or.inr ?_)
      rw [Option.toList_some, List.mem_singleton]
      rw [hgd] at h2
      exact h2

/-- The state reached after `j` successful `get_next_key` calls at
instant `now` on a fresh pool over `keys`:  the first `j` credentials
are stamped as used at `now`, no errors are recorded and the cursor sits
on the credential returned last (position `j - 1`, or `0` before the
first call). -/
def fresh_round_state (keys : List String) (settings : Settings) (now : Int)
    (j : Nat) (m : APIKeyManager) : Prop :=
  m.api_keys = keys ∧ m.settings = settings ∧
  (∀ k, lookupD m.rate_limits k 0 = if k ∈ keys.take j then now else 0) ∧
  (∀ k, lookupD m.error_counts k 0 = 0) ∧
  m.current_index = j - 1

theorem fresh_round_update (keys : List String) (settings : Settings) (now : Int)
    (j : Nat) (hj : j < keys.length) (m : APIKeyManager)
    (hak : m.api_keys = keys) (hst : m.settings = settings)
    (hrl : ∀ k, lookupD m.rate_limits k 0 = if k ∈ keys.take j then now else 0)
    (hel : ∀ k, lookupD m.error_counts k 0 = 0)
    (hcur : m.current_index = j) :
    fresh_round_state keys settings now (j + 1)
      (update_usage now (m.api_keys.getD m.current_index "") m) := by
  have hkey : m.api_keys.getD m.current_index "" = keys.getD j "" := by
    rw [hak, hcur]
  rw [hkey]
  refine ⟨hak, hst, ?_, hel, ?_⟩
  · intro k
    have hlhs : lookupD (update_usage now (keys.getD j "") m).rate_limits k 0
        = lookupD (insertD m.rate_limits (keys.getD j "") now) k 0 := rfl
    rw [hlhs, lookupD_insertD, hrl k]
    have hiff := mem_take_succ_iff keys j hj k
    by_cases hk : keys.getD j "" = k
    · have hmem2 : k ∈ keys.take (j + 1) := hiff.mpr (Or.inr hk.symm)
      rw [if_pos hk, if_pos hmem2]
    · rw [if_neg hk]
      by_cases hmem : k ∈ keys.take j
      · have hmem2 : k ∈ keys.take (j + 1) := hiff.mpr (Or.inl hmem)
        rw [if_pos hmem, if_pos hmem2]
      · have hmem2 : ¬ k ∈ keys.take (j + 1) := by
          intro hmem3
          rcases hiff.mp hmem3 with h1 | h2
          · exact hmem h1
          · exact hk h2.symm
        rw [if_neg hmem, if_neg hmem2]
  · show m.current_index = (j + 1) - 1
    omega

theorem fresh_round_step (keys : List String) (settings : Settings) (now : Int)
    (hnd : keys.Nodup) (hpos : 0 < rate_limit_cd settings)
    (hrc : rate_limit_cd settings ≤ now) (hec : error_cd settings ≤ now)
    (j : Nat) (m : APIKeyManager) (hj : j < keys.length)
    (hinv : fresh_round_state keys settings now j m) :
    (get_next_key now m).1 = some (keys.getD j "") ∧
    fresh_round_state keys settings now (j + 1) (get_next_key now m).2 := by
  obtain ⟨hak, hst, hrl, hel, hci⟩ := hinv
  have hne : m.api_keys.isEmpty = false := by
    rw [hak]
    cases keys with
    | nil => simp at hj
    | cons a l => rfl
  have hfst : (get_next_key now m).1 = (scan_keys now m.api_keys.length m).1 := by
    rw [get_next_key_eq_scan now m hne]
  have hsnd : (get_next_key now m).2 = (scan_keys now m.api_keys.length m).2.1 := by
    rw [get_next_key_eq_scan now m hne]
  cases j with
  | zero =>
    have hci0 : m.current_index = 0 := by simpa using hci
    obtain ⟨l, hl⟩ : ∃ l, keys.length = l + 1 := ⟨keys.length - 1, by omega⟩
    have hlen : m.api_keys.length = l + 1 := by rw [hak, hl]
    have hkey : m.api_keys.getD m.current_index "" = keys.getD 0 "" := by
      rw [hak, hci0]
    have hav : is_key_available now m (m.api_keys.getD m.current_index "") = true := by
      rw [is_key_available_true_iff, hst, hrl, hel]
      have hnm : ¬ m.api_keys.getD m.current_index "" ∈ keys.take 0 := by
        rw [List.take_zero]
        exact List.not_mem_nil _
      rw [if_neg hnm]
      constructor <;> omega
    have hscan := scan_keys_first_avail now l m hav
    constructor
    · rw [hfst, hlen, hscan, hkey]
    · rw [hsnd, hlen, hscan]
      exact fresh_round_update keys settings now 0 hj m hak hst hrl hel hci0
  | succ j2 =>
    have hci2 : m.current_index = j2 := by simpa using hci
    have hj2 : j2 < keys.length := by omega
    obtain ⟨n2, hn2⟩ : ∃ n2, keys.length = n2 + 2 := ⟨keys.length - 2, by omega⟩
    have hlen : m.api_keys.length = n2 + 2 := by rw [hak, hn2]
    have hkey0 : m.api_keys.getD m.current_index "" = keys.getD j2 "" := by
      rw [hak, hci2]
    have hunav : is_key_available now m (m.api_keys.getD m.current_index "")
        = false := by
      apply is_key_available_false_of_rate
      rw [hkey0, hrl]
      have hmem : keys.getD j2 "" ∈ keys.take (j2 + 1) :=
        (mem_take_succ_iff keys j2 hj2 _).mpr (Or.inr rfl)
      rw [if_pos hmem, hst]
      omega
    have hskip := scan_keys_skip now (n2 + 1) m hunav
    have hak2 : ({ m with current_index :=
        (m.current_index + 1) % m.api_keys.length } : APIKeyManager).api_keys
        = keys := hak
    have hst2 : ({ m with current_index :=
        (m.current_index + 1) % m.api_keys.length } : APIKeyManager).settings
        = settings := hst
    have hrl2 : ∀ k, lookupD ({ m with current_index :=
        (m.current_index + 1) % m.api_keys.length } : APIKeyManager).rate_limits k 0
        = if k ∈ keys.take (j2 + 1) then now else 0 := hrl
    have hel2 : ∀ k, lookupD ({ m with current_index :=
        (m.current_index + 1) % m.api_keys.length } : APIKeyManager).error_counts k 0
        = 0 := hel
    have hcur2a : (m.current_index + 1) % m.api_keys.length = j2 + 1 := by
      rw [hci2, hak]
      exact Nat.mod_eq_of_lt (by omega)
    have hcur2 : ({ m with current_index :=
        (m.current_index + 1) % m.api_keys.length } : APIKeyManager).current_index
        = j2 + 1 := hcur2a
    have hkey2 : ({ m with current_index :=
        (m.current_index + 1) % m.api_keys.length } : APIKeyManager).api_keys.getD
        ({ m with current_index :=
          (m.current_index + 1) % m.api_keys.length } : APIKeyManager).current_index
        "" = keys.getD (j2 + 1) "" := by
      show m.api_keys.getD ((m.current_index + 1) % m.api_keys.length) ""
        = keys.getD (j2 + 1) ""
      rw [hcur2a, hak]
    have hav2 : is_key_available now
        ({ m with current_index :=
          (m.current_index + 1) % m.api_keys.length } : APIKeyManager)
        (({ m with current_index :=
          (m.current_index + 1) % m.api_keys.length } : APIKeyManager).api_keys.getD
          ({ m with current_index :=
            (m.current_index + 1) % m.api_keys.length } :
              APIKeyManager).current_index "") = true := by
      rw [hkey2, is_key_available_true_iff, hst2, hrl2, hel2]
      have hnm : ¬ keys.getD (j2 + 1) "" ∈ keys.take (j2 + 1) :=
        getD_not_mem_take keys (j2 + 1) hj hnd
      rw [if_neg hnm]
      constructor <;> omega
    have hfirst := scan_keys_first_avail now n2
      ({ m with current_index :=
        (m.current_index + 1) % m.api_keys.length } : APIKeyManager) hav2
    constructor
    · rw [hfst, hlen, hskip.1, hfirst, hkey2]
    · rw [hsnd, hlen, hskip.2, hfirst]
      exact fresh_round_update keys settings now (j2 + 1) hj
        ({ m with current_index :=
          (m.current_index + 1) % m.api_keys.length } : APIKeyManager)
        hak2 hst2 hrl2 hel2 hcur2

theorem fresh_round_run (keys : List String) (settings : Settings) (now : Int)
    (hnd : keys.Nodup) (hpos : 0 < rate_limit_cd settings)
    (hrc : rate_limit_cd settings ≤ now) (hec : error_cd settings ≤ now) :
    ∀ (cnt j : Nat) (m : APIKeyManager), j + cnt = keys.length →
      fresh_round_state keys settings now j m →
      (run_next (List.replicate cnt now) m).1 = (keys.drop j).map some := by
  intro cnt
  induction cnt with
  | zero =>
    intro j m hj _
    have hjj : j = keys.length := by omega
    subst hjj
    rw [List.drop_length]
    rfl
  | succ c ih =>
    intro j m hj hinv
    have hjlt : j < keys.length := by omega
    have hstep := fresh_round_step keys settings now hnd hpos hrc hec j m hjlt hinv
    have hgd : keys.getD j "" = keys.get ⟨j, hjlt⟩ := by
      rw [List.getD_eq_getElem?_getD, List.getElem?_eq_getElem hjlt]
      rfl
    have hdrop : keys.drop j = keys.get ⟨j, hjlt⟩ :: keys.drop (j + 1) :=
      List.drop_eq_getElem_cons hjlt
    rw [List.replicate_succ]
    show ((get_next_key now m).1 ::
      (run_next (List.replicate c now) (get_next_key now m).2).1) =
        (keys.drop j).map some
    rw [hstep.1, ih (j + 1) (get_next_key now m).2 (by omega) hstep.2, hdrop, hgd]
    rfl

/-- `C2`: on a freshly constructed pool over `n ≥ 1` distinct
credentials with no recorded usage or error, positive rate-limit
cooldown, and a call instant at which the cooldowns measured from the
zero default timestamp have elapsed (true of any realistic wall-clock
reading), `n` consecutive `get_next_key` calls return each credential
exactly once, in insertion order starting with the first credential. -/
theorem c2_fresh_pool_rotation (keys : List String) (settings : Settings)
    (now : Int) (_hne : keys ≠ []) (hnd : keys.Nodup)
    (hpos : 0 < rate_limit_cd settings)
    (hrc : rate_limit_cd settings ≤ now) (hec : error_cd settings ≤ now) :
    (run_next (List.replicate keys.length now) (init_manager keys settings)).1 =
      keys.map some := by
  have h0 : fresh_round_state keys settings now 0 (init_manager keys settings) := by
    refine ⟨rfl, rfl, ?_, ?_, rfl⟩
    · intro k
      have hnm : ¬ k ∈ keys.take 0 := by
        rw [List.take_zero]
        exact List.not_mem_nil _
      rw [if_neg hnm]
      rfl
    · intro k
      rfl
  have hrun := fresh_round_run keys settings now hnd hpos hrc hec keys.length 0
    (init_manager keys settings) (by omega) h0
  rw [List.drop_zero] at hrun
  exact hrun

theorem c2_fresh_pool_rotation_witness :
    (["A", "B", "C"] : List String) ≠ [] ∧
    (["A", "B", "C"] : List String).Nodup ∧
    0 < rate_limit_cd default_settings ∧
    rate_limit_cd default_settings ≤ 1000 ∧
    error_cd default_settings ≤ 1000 ∧
    (run_next (List.replicate (["A", "B", "C"] : List String).length 1000)
        (init_manager ["A", "B", "C"] default_settings)).1 =
      (["A", "B", "C"] : List String).map some :=
  ⟨by decide, by decide, by decide, by decide, by decide,
   c2_fresh_pool_rotation ["A", "B", "C"] default_settings 1000
    (by decide) (by decide) (by decide) (by decide) (by decide)⟩
